import Mathlib

/-!
Verification of the ORSopt search driver (`src/multivarious/optimization/ORSopt.py`).

The driver is embedded shallowly at dimension one, where `np.linalg.norm`
coincides with the absolute value, so that every quantity the code computes
is an exact rational and the whole run is executable.  Machine floats are
idealized as exact rationals (the literals `1e-16` and `1e-9` become
`1/10^16` and `1/10^9`).  The pseudo-random draws of `np.random.randn` are
passed in as an explicit input stream, one draw per loop iteration.

The helpers `optim_options`, `box_constraint` and `avg_cov_func` are not part
of this repository's sources; they are modelled from the spec's collaborator
contracts (see the doc comments below).  The resolved option values
(tolerances, budget, stop-on-feasible flag) are passed directly as parameters,
mirroring what `optim_options` would produce.

`np.linalg.solve` raises on an exactly singular system; this is modelled by
`Option`, with `none` propagated through the run.
-/

namespace ORS

/-- The additive epsilon `1e-16` guarding divisions, as an exact rational. -/
def eps16 : ℚ := 1 / 10000000000000000

/-- The diagonal regularization `1e-9` of the quadratic-fit system. -/
def reg9 : ℚ := 1 / 1000000000

/-- `np.clip(x, -1.0, 1.0)` in one dimension. -/
def clip1 (x : ℚ) : ℚ := min 1 (max (-1) x)

/-- Modelled from the spec: the Step Projector `box_constraint` (not under
`src/`).  Given a current normalized point and a direction it returns a scalar
multiplier keeping the stepped point inside `[-1, 1]`; when the whole step
stays inside the box the multiplier is `1` (the step is taken whole),
otherwise it is the largest multiplier that puts the stepped point exactly on
the bound that would be hit. -/
def box_constraint (x d : ℚ) : ℚ :=
  if -1 ≤ x + d ∧ x + d ≤ 1 then 1
  else if 0 < d then (1 - x) / d
  else if d < 0 then (-1 - x) / d
  else 1

/-- A probe point `x + a * d` with `a = box_constraint x d`, the form in which
the driver builds candidates 2, 3 and 4. -/
def probePoint (x d : ℚ) : ℚ := x + box_constraint x d * d

/-- Modelled from the spec: the Evaluator `avg_cov_func` (not under `src/`).
Per the Evaluator contract it returns the objective, the constraint value, the
(possibly box-corrected) point actually evaluated and an evaluation-count
increment.  It is modelled deterministic with increment `1` (no averaging,
i.e. the default options) and with the point returned unchanged — the driver
only ever hands it in-box points, so the `BX` bounds enforcement is a no-op.
The constraint vector is modelled by its worst (max) component, the only
quantity the driver reads from it. -/
def avg_cov_func (E : ℚ → ℚ × ℚ) (x : ℚ) : ℚ × ℚ × ℚ × ℕ :=
  ((E x).1, (E x).2, x, 1)

/-- Determinant of a 3×3 matrix given row-wise. -/
def det3 (a11 a12 a13 a21 a22 a23 a31 a32 a33 : ℚ) : ℚ :=
  a11 * (a22 * a33 - a23 * a32) - a12 * (a21 * a33 - a23 * a31)
    + a13 * (a21 * a32 - a22 * a31)

/-- `np.linalg.solve(A, fa[:3])` for the quadratic-fit system of lines
131–135: `A = [[0,0,1],[dx2²/2,dx2,1],[dx3²/2,dx3,1]] + 1e-9·I`, solved by
Cramer's rule; `none` models the `LinAlgError` on an exactly singular system. -/
def solve3 (dx2 dx3 f0 f1 f2 : ℚ) : Option (ℚ × ℚ × ℚ) :=
  let a11 := reg9
  let a21 := dx2 * dx2 / 2
  let a22 := dx2 + reg9
  let a31 := dx3 * dx3 / 2
  let a32 := dx3
  let a33 := 1 + reg9
  let dA := det3 a11 0 1 a21 a22 1 a31 a32 a33
  if dA = 0 then none
  else some (det3 f0 0 1 f1 a22 1 f2 a32 a33 / dA,
             det3 a11 f0 1 a21 f1 1 a31 f2 a33 / dA,
             det3 a11 0 f0 a21 a22 f1 a31 a32 f2 / dA)

/-- `int(np.argmin([a, b, c, d]))`: the first index achieving the minimum. -/
def argmin4 (a b c d : ℚ) : ℕ :=
  if a ≤ b ∧ a ≤ c ∧ a ≤ d then 0
  else if b ≤ c ∧ b ≤ d then 1
  else if c ≤ d then 2
  else 3

/-- One column of `cvg_hst`: `[x; f; max(g); func_count; cvg_x; cvg_f]`
(the variable block is one-dimensional here). -/
structure Record where
  x : ℚ
  f : ℚ
  maxg : ℚ
  fc : ℕ
  cvgx : ℚ
  cvgf : ℚ
deriving DecidableEq, Repr

/-- Default record, used only as the `getD` fallback. -/
def recDefault : Record := ⟨0, 0, 0, 0, 0, 0⟩

/-- The per-call configuration of the driver: the evaluator, the affine
scaling constants `s0`, `s1` derived from the bounds, and the resolved
option values read at lines 56–62. -/
structure Params where
  E : ℚ → ℚ × ℚ
  s0 : ℚ
  s1 : ℚ
  tol_x : ℚ
  tol_f : ℚ
  tol_g : ℚ
  max_evals : ℕ
  find_feas : Bool

/-- The mutable state of the main loop.  `selLog` and `evalLog` are ghost
instrumentation recording, per iteration, the selected candidate index, the
`quad_update` flag and the `fa[0]` value scanned by the argmin, and every
normalized point handed to the evaluator; they do not influence control. -/
structure OrsState where
  x1 : ℚ
  g1 : ℚ
  fa0 : ℚ
  fa1 : ℚ
  fa2 : ℚ
  fa3 : ℚ
  x4 : ℚ
  g4 : ℚ
  f_opt : ℚ
  x_opt : ℚ
  g_opt : ℚ
  sigma : ℚ
  cvg_x : ℚ
  cvg_f : ℚ
  fc : ℕ
  iteration : ℕ
  accepted : ℕ
  hist : List Record
  stream : List ℚ
  selLog : List (ℕ × Bool × ℚ)
  evalLog : List ℚ
  stopped : Bool
deriving DecidableEq

/-- The dispatch of lines 148–156 on the argmin index: the value attached to
candidate `i` of the four slots (`v0` is the base slot, selected when `i = 0`). -/
def sel4 (i : ℕ) (v1 v2 v3 v0 : ℚ) : ℚ :=
  if i = 1 then v1 else if i = 2 then v2 else if i = 3 then v3 else v0

/-- The step-scale update of lines 158–160 (`nu = 1`): shrink only when the
selection moved off the base point. -/
def sigmaNext (sigma : ℚ) (i : ℕ) (fc maxe : ℕ) : ℚ :=
  if 0 < i then sigma * (1 - (fc : ℚ) / (maxe : ℚ)) else sigma

/-- The tail of the loop body, from the candidate selection of line 148 to the
termination checks of lines 200–210, entered with the iteration's freshly
computed quantities.  `fc` is the function count after this iteration's
evaluations, `pts` the list of points evaluated this iteration. -/
def afterQuad (p : Params) (s : OrsState) (st' : List ℚ)
    (fa1 fa2 : ℚ) (x2 g2 x3 g3 x4 g4 fa3 : ℚ)
    (fc : ℕ) (quadU : Bool) (pts : List ℚ) : OrsState :=
  let i_min := argmin4 s.fa0 fa1 fa2 fa3
  let xNew := sel4 i_min x2 x3 x4 s.x1
  let gNew := sel4 i_min g2 g3 g4 s.g1
  let fmin := sel4 i_min fa1 fa2 fa3 s.fa0
  let sigma' := sigmaNext s.sigma i_min fc p.max_evals
  let x1' := clip1 xNew
  if fmin < s.f_opt then
    -- lines 164–180; the guards `iteration >= 1` and `isfinite(prev)` of
    -- lines 174–175 are identically satisfied: `iteration` starts at 1 and
    -- every written column is finite in exact arithmetic
    let prevRec := s.hist.getD (s.iteration - 1) recDefault
    let xx := (x1' - p.s0) / p.s1
    let cvgx := |prevRec.x - xx| / (|xx| + eps16)
    let cvgf := |prevRec.f - fmin| / (|fmin| + eps16)
    let newRec : Record := ⟨xx, fmin, gNew, fc, cvgx, cvgf⟩
    let stopF : Bool := decide (gNew < p.tol_g) && p.find_feas
    let stopC : Bool := decide (1 < s.iteration + 1)
      && (decide (cvgx < p.tol_x) || decide (cvgf < p.tol_f))
    { s with
      x1 := x1'
      g1 := gNew
      fa1 := fa1
      fa2 := fa2
      fa3 := fa3
      x4 := x4
      g4 := g4
      f_opt := fmin
      x_opt := x1'
      g_opt := gNew
      sigma := sigma'
      cvg_x := cvgx
      cvg_f := cvgf
      fc := fc
      iteration := s.iteration + 1
      accepted := s.accepted + 1
      hist := s.hist ++ [newRec]
      stream := st'
      selLog := s.selLog ++ [(i_min, quadU, s.fa0)]
      evalLog := s.evalLog ++ pts
      stopped := stopF || stopC }
  else
    let stopF : Bool := decide (s.g_opt < p.tol_g) && p.find_feas
    let stopC : Bool := decide (1 < s.iteration)
      && (decide (s.cvg_x < p.tol_x) || decide (s.cvg_f < p.tol_f))
    { s with
      x1 := x1'
      g1 := gNew
      fa1 := fa1
      fa2 := fa2
      fa3 := fa3
      x4 := x4
      g4 := g4
      sigma := sigma'
      fc := fc
      stream := st'
      selLog := s.selLog ++ [(i_min, quadU, s.fa0)]
      evalLog := s.evalLog ++ pts
      stopped := stopF || stopC }

/-- The probe direction decision of line 120: extrapolate (`+2`) when the
forward probe improved over `fa[0]`, otherwise reverse (`-1`). -/
def stepDir (fa1 fa0 : ℚ) : ℚ :=
  if fa1 < fa0 then 2 else -1

/-- Lines 140–145: evaluate the quadratic-refined candidate `x4` and finish
the iteration with `quad_update = True`. -/
def stepX4 (p : Params) (s : OrsState) (x2 fa1 g2 x3 fa2 g3 : ℚ) (fcB : ℕ)
    (x4 : ℚ) : Option OrsState :=
  some (afterQuad p s s.stream.tail fa1 fa2 x2 g2 x3 g3
    x4 (avg_cov_func p.E x4).2.1 (avg_cov_func p.E x4).1
    (fcB + (avg_cov_func p.E x4).2.2.2) true [x2, x3, x4])

/-- Lines 127–145: fit the regularized quadratic to `(0, dx2, dx3)` with the
effective travelled distances as abscissas; on a convex fit evaluate the
vertex candidate, otherwise finish the iteration with the stale fourth slot
untouched and `quad_update = False`. -/
def stepF2 (p : Params) (s : OrsState) (r x2 fa1 g2 x3 fa2 g3 : ℚ)
    (fcB : ℕ) : Option OrsState :=
  match solve3 (|x2 - s.x1| / (|r| + eps16)) (|x3 - s.x1| / (|r| + eps16))
      s.fa0 fa1 fa2 with
  | none => none
  | some (qa, qb, _) =>
    if 0 < qa then
      stepX4 p s x2 fa1 g2 x3 fa2 g3 fcB (probePoint s.x1 (-qb / qa * r))
    else
      some (afterQuad p s s.stream.tail fa1 fa2 x2 g2 x3 g3
        s.x4 s.g4 s.fa3 fcB false [x2, x3])

/-- Lines 122–125: evaluate the secondary probe `x3`. -/
def stepX3 (p : Params) (s : OrsState) (r x2 fa1 g2 : ℚ) (fcA : ℕ)
    (x3 : ℚ) : Option OrsState :=
  stepF2 p s r x2 fa1 g2 x3 (avg_cov_func p.E x3).1 (avg_cov_func p.E x3).2.1
    (fcA + (avg_cov_func p.E x3).2.2.2)

/-- Lines 119–122: decide the secondary probe direction and feasibility-limit
it from the current point. -/
def stepF1 (p : Params) (s : OrsState) (r x2 fa1 g2 : ℚ) (fcA : ℕ) :
    Option OrsState :=
  stepX3 p s r x2 fa1 g2 fcA (probePoint s.x1 (stepDir fa1 s.fa0 * r))

/-- Lines 113–117: evaluate the forward probe `x2`. -/
def stepX2 (p : Params) (s : OrsState) (r x2 : ℚ) : Option OrsState :=
  stepF1 p s r x2 (avg_cov_func p.E x2).1 (avg_cov_func p.E x2).2.1
    (s.fc + (avg_cov_func p.E x2).2.2.2)

/-- Line 113–114: feasibility-limit the forward probe from the current point. -/
def stepR (p : Params) (s : OrsState) (r : ℚ) : Option OrsState :=
  stepX2 p s r (probePoint s.x1 r)

/-- One iteration of the main loop (lines 110–210): draw the direction
`r = sigma * randn()` from the input stream, probe candidates 2 and 3, fit the
regularized quadratic, evaluate candidate 4 when its leading coefficient is
positive, then select, update and check.  The body is staged into the
`step...` helpers above, which thread each computed quantity by argument. -/
def orsoptStep (p : Params) (s : OrsState) : Option OrsState :=
  stepR p s (s.sigma * s.stream.headD 0)

/-- The state after the initialization of lines 64–105: normalize and clip the
seed, evaluate it once, write the first history column and set up the four
candidate slots (`fa = np.zeros(4)`, then `fa[0] = f_opt`, `fa[3] = fa[0]`). -/
def initState (p : Params) (x_init : ℚ) (stream : List ℚ) : OrsState :=
  let x1c := clip1 (p.s0 + p.s1 * x_init)
  let fv := (avg_cov_func p.E x1c).1
  let gv := (avg_cov_func p.E x1c).2.1
  let x1 := (avg_cov_func p.E x1c).2.2.1
  let fc := (avg_cov_func p.E x1c).2.2.2
  { x1 := x1
    g1 := gv
    fa0 := fv
    fa1 := 0
    fa2 := 0
    fa3 := fv
    x4 := x1
    g4 := gv
    f_opt := fv
    x_opt := x1
    g_opt := gv
    sigma := 1 / 5
    cvg_x := 1
    cvg_f := 1
    fc := fc
    iteration := 1
    accepted := 0
    hist := [⟨(x1 - p.s0) / p.s1, fv, gv, fc, 1, 1⟩]
    stream := stream
    selLog := []
    evalLog := [x1c]
    stopped := false }

/-- The main loop `while function_count < max_evals` with its `break`s
(modelled by the `stopped` flag, set at the end of the body).  The fuel is an
upper bound on the number of iterations; since every iteration consumes at
least two evaluations, `max_evals` fuel is always enough. -/
def orsoptLoop (p : Params) : ℕ → OrsState → Option OrsState
  | 0, s => some s
  | n + 1, s =>
    if s.stopped then some s
    else if s.fc < p.max_evals then
      match orsoptStep p s with
      | none => none
      | some s' => orsoptLoop p n s'
    else some s

/-- The values returned by `orsopt` (lines 237–244) together with the ghost
instrumentation carried through the run. -/
structure OrsResult where
  x_opt : ℚ
  f_opt : ℚ
  g_opt : ℚ
  hist : List Record
  fc : ℕ
  iteration : ℕ
  accepted : ℕ
  selLog : List (ℕ × Bool × ℚ)
  evalLog : List ℚ
  stopped : Bool
deriving DecidableEq

/-- Default result, used only as the `getD` fallback. -/
def resDefault : OrsResult := ⟨0, 0, 0, [], 0, 0, 0, [], [], false⟩

/-- Finalization (lines 217–244): unscale the best point and truncate the
history to `k = max(1, iteration)` columns.  The `isfinite` back-fill of
lines 241–242 touches the bottom-right cell (the `cvg_f` row); in exact
arithmetic every written cell is finite, so the branch is a no-op and the
model elides it. -/
def finalize (p : Params) (s : OrsState) : OrsResult :=
  ⟨(s.x_opt - p.s0) / p.s1, s.f_opt, s.g_opt,
   s.hist.take (max 1 s.iteration), s.fc, s.iteration, s.accepted,
   s.selLog, s.evalLog, s.stopped⟩

/-- Lines 49–53: when either bound is omitted, both are replaced by the
defaults `±100·|x_init|`. -/
def resolveBounds (x_init : ℚ) : Option ℚ → Option ℚ → ℚ × ℚ
  | some lb, some ub => (lb, ub)
  | _, _ => (-(100 * |x_init|), 100 * |x_init|)

/-- The scaling constants of lines 65–66: `s0 = (lb+ub)/(lb-ub)`,
`s1 = 2/(ub-lb)`. -/
def mkParams (E : ℚ → ℚ × ℚ) (lb ub : ℚ) (tolx tolf tolg : ℚ)
    (maxe : ℕ) (ff : Bool) : Params :=
  { E := E, s0 := (lb + ub) / (lb - ub), s1 := 2 / (ub - lb),
    tol_x := tolx, tol_f := tolf, tol_g := tolg,
    max_evals := maxe, find_feas := ff }

/-- The caller-facing entry point `orsopt` (one-dimensional instance). -/
def orsopt (E : ℚ → ℚ × ℚ) (x_init : ℚ) (olb oub : Option ℚ)
    (tolx tolf tolg : ℚ) (maxe : ℕ) (ff : Bool) (stream : List ℚ) :
    Option OrsResult :=
  let bs := resolveBounds x_init olb oub
  let p := mkParams E bs.1 bs.2 tolx tolf tolg maxe ff
  (orsoptLoop p p.max_evals (initState p x_init stream)).map (finalize p)

/-- The objective value of the seed evaluation: the initial guess normalized,
clipped and evaluated once (lines 64–78). -/
def seedObjective (E : ℚ → ℚ × ℚ) (x_init : ℚ) (olb oub : Option ℚ) : ℚ :=
  let bs := resolveBounds x_init olb oub
  let p := mkParams E bs.1 bs.2 0 0 0 0 false
  (avg_cov_func E (clip1 (p.s0 + p.s1 * x_init))).1

/-- The relation between a history column and its successor produced by an
accepted iteration (lines 169–175): the recorded convergence ratios divide the
change from the previous record by the magnitude of the *new* unscaled
variable value, resp. the *new* objective, plus `1e-16`. -/
def cvgRel (a b : Record) : Prop :=
  b.cvgx = |a.x - b.x| / (|b.x| + eps16) ∧ b.cvgf = |a.f - b.f| / (|b.f| + eps16)

/-- The invariant tying the history table to the loop counters: nonempty,
one column per `iteration`, `iteration` one above the count of accepted
iterations, every recorded objective at least the incumbent, objectives
non-increasing along the table, and consecutive columns related by the
recorded convergence ratios. -/
def histInv (s : OrsState) : Prop :=
  s.hist ≠ [] ∧ s.hist.length = s.iteration ∧ s.iteration = s.accepted + 1 ∧
    (∀ r ∈ s.hist, s.f_opt ≤ r.f) ∧
    List.Chain' (fun a b => b.f ≤ a.f) s.hist ∧
    List.Chain' cvgRel s.hist

/-- The box invariant: the current point and every point handed to the
evaluator so far lie in `[-1, 1]`. -/
def boxInv (s : OrsState) : Prop :=
  (-1 ≤ s.x1 ∧ s.x1 ≤ 1) ∧ ∀ q ∈ s.evalLog, -1 ≤ q ∧ q ≤ 1

/-! Concrete evaluators and runs used to witness and to refute claims.  All
runs use bounds `[-1, 1]` (so `s0 = 0`, `s1 = 1`), seed `x_init = 0`, zero
tolerances unless noted, and an explicit stream of unit normal draws. -/

/-- A strictly improving linear objective, always infeasible (`g = 1`). -/
def Ew : ℚ → ℚ × ℚ := fun x => (-x, 1)

/-- Budget-5 run of `Ew`: two improving iterations. -/
def RW : OrsResult :=
  (orsopt Ew 0 (some (-1)) (some 1) 0 0 0 5 false [1, 1]).getD resDefault

/-- Budget-3 run of `Ew`: exactly one improving iteration, two history
columns. -/
def R2 : OrsResult :=
  (orsopt Ew 0 (some (-1)) (some 1) 0 0 0 3 false [1]).getD resDefault

/-- A piecewise-constant objective crafted so that the first iteration
computes and selects the quadratic candidate (objective 1 near `x = 1/4`),
while the second iteration's probes land on values 7 and 2, making the
fit concave: the quadratic slot is then stale yet still the argmin. -/
def E1 : ℚ → ℚ × ℚ := fun x =>
  (if x < 1 / 10 then 10 else if x < 21 / 100 then 4
   else if x < 49 / 200 then 100 else if x < 51 / 200 then 1
   else if x < 3 / 10 then 100 else if x < 9 / 25 then 7
   else if x < 41 / 100 then 6 else 2, 1)

/-- Budget-7 run of `E1` exhibiting selection of the uncomputed candidate 4. -/
def R1 : OrsResult :=
  (orsopt E1 0 (some (-1)) (some 1) 0 0 0 7 false [1, 1, 1]).getD resDefault

/-- The constant objective `+1` (infeasible constraint). -/
def Ec1 : ℚ → ℚ × ℚ := fun _ => (1, 1)

/-- The constant objective `-1` (infeasible constraint). -/
def Ecm1 : ℚ → ℚ × ℚ := fun _ => (-1, 1)

/-- Budget-5 run of the constant objective `+1`: the regularized fit is
never convex, no quadratic evaluations, exhaustion after the 5th evaluation. -/
def R3pos : OrsResult :=
  (orsopt Ec1 0 (some (-1)) (some 1) 0 0 0 5 false [1, 1]).getD resDefault

/-- Budget-5 run of the constant objective `-1`: the regularized fit turns
convex, each iteration evaluates the quadratic candidate, and the run
overshoots the budget. -/
def R3neg : OrsResult :=
  (orsopt Ecm1 0 (some (-1)) (some 1) 0 0 0 5 false [1, 1]).getD resDefault

/-- Budget-3 run of the constant objective `+1`: no accepted iteration, one
(seed) history column. -/
def R8 : OrsResult :=
  (orsopt Ec1 0 (some (-1)) (some 1) 0 0 0 3 false [1]).getD resDefault

/-- A constant, everywhere-feasible evaluator (`f = 5`, `g = -1`). -/
def E4 : ℚ → ℚ × ℚ := fun _ => (5, -1)

/-- Run with the stop-on-feasible flag set, constraint tolerance `1/10`, and
an already-feasible seed. -/
def R4 : OrsResult :=
  (orsopt E4 0 (some (-1)) (some 1) 0 0 (1 / 10) 10 true [1]).getD resDefault

/-- The identity objective with a trivial constraint. -/
def E7 : ℚ → ℚ × ℚ := fun x => (x, 0)

/-- Run with degenerate bounds `lb = ub = 1`: the scaling constants divide by
`lb - ub = 0`, and the run still evaluates. -/
def R7 : OrsResult :=
  (orsopt E7 1 (some 1) (some 1) 0 0 0 2 false [1]).getD resDefault

end ORS

attribute [local semireducible] Rat.ofScientific Rat.mul Rat.inv Rat.add Rat.sub

namespace ORS

/-! Basic facts about clipping and the step projector. -/

lemma clip1_mem (x : ℚ) : -1 ≤ clip1 x ∧ clip1 x ≤ 1 := by
  unfold clip1
  exact ⟨le_min (by norm_num) (le_max_left _ _), min_le_left _ _⟩

lemma probePoint_mem (x d : ℚ) (h1 : -1 ≤ x) (h2 : x ≤ 1) :
    -1 ≤ probePoint x d ∧ probePoint x d ≤ 1 := by
  unfold probePoint box_constraint
  split
  · rename_i hin
    simpa using hin
  · split
    · rename_i hin hd
      rw [div_mul_cancel₀ _ (ne_of_gt hd)]
      constructor <;> linarith
    · split
      · rename_i hin hd hd'
        rw [div_mul_cancel₀ _ (ne_of_lt hd')]
        constructor <;> linarith
      · rename_i hin hd hd'
        have hd0 : d = 0 := le_antisymm (not_lt.mp hd) (not_lt.mp hd')
        subst hd0
        simpa using And.intro h1 h2

/-! List helpers connecting `getD`, `getLast?` and `Chain'`-extension. -/

lemma getLast?_eq_getD (l : List Record) (h : l ≠ []) :
    l.getLast? = some (l.getD (l.length - 1) recDefault) := by
  have hpos : 0 < l.length := List.length_pos.mpr h
  have hlt : l.length - 1 < l.length := by omega
  rw [List.getLast?_eq_getElem?, List.getD_eq_getElem?_getD,
    List.getElem?_eq_getElem hlt]
  rfl

lemma getD_last_mem (l : List Record) (h : l ≠ []) :
    l.getD (l.length - 1) recDefault ∈ l := by
  have hpos : 0 < l.length := List.length_pos.mpr h
  have hlt : l.length - 1 < l.length := by omega
  rw [List.getD_eq_getElem?_getD, List.getElem?_eq_getElem hlt]
  exact List.getElem_mem hlt

lemma chain_append_one {R : Record → Record → Prop} {l : List Record} {a : Record}
    (hl : List.Chain' R l) (h : ∀ x ∈ l.getLast?, R x a) :
    List.Chain' R (l ++ [a]) := by
  refine List.chain'_append.mpr ⟨hl, List.chain'_singleton a, ?_⟩
  intro x hx y hy
  simp only [List.head?_cons, Option.mem_def, Option.some.injEq] at hy
  exact hy ▸ h x hx

/-! Field projections of `afterQuad` and `initState`. -/

lemma afterQuad_fields (p : Params) (s : OrsState) (st' : List ℚ)
    (fa1 fa2 x2 g2 x3 g3 x4 g4 fa3 : ℚ) (fc : ℕ) (quadU : Bool) (pts : List ℚ) :
    (afterQuad p s st' fa1 fa2 x2 g2 x3 g3 x4 g4 fa3 fc quadU pts).fa0 = s.fa0 ∧
    (afterQuad p s st' fa1 fa2 x2 g2 x3 g3 x4 g4 fa3 fc quadU pts).selLog
      = s.selLog ++ [(argmin4 s.fa0 fa1 fa2 fa3, quadU, s.fa0)] ∧
    (afterQuad p s st' fa1 fa2 x2 g2 x3 g3 x4 g4 fa3 fc quadU pts).evalLog
      = s.evalLog ++ pts ∧
    (afterQuad p s st' fa1 fa2 x2 g2 x3 g3 x4 g4 fa3 fc quadU pts).fc = fc := by
  simp only [afterQuad]
  split <;> exact ⟨rfl, rfl, rfl, rfl⟩

lemma afterQuad_x1_mem (p : Params) (s : OrsState) (st' : List ℚ)
    (fa1 fa2 x2 g2 x3 g3 x4 g4 fa3 : ℚ) (fc : ℕ) (quadU : Bool) (pts : List ℚ) :
    -1 ≤ (afterQuad p s st' fa1 fa2 x2 g2 x3 g3 x4 g4 fa3 fc quadU pts).x1 ∧
    (afterQuad p s st' fa1 fa2 x2 g2 x3 g3 x4 g4 fa3 fc quadU pts).x1 ≤ 1 := by
  simp only [afterQuad]
  split <;> exact clip1_mem _

lemma initState_stopped (p : Params) (x0 : ℚ) (st : List ℚ) :
    (initState p x0 st).stopped = false := rfl

lemma initState_selLog (p : Params) (x0 : ℚ) (st : List ℚ) :
    (initState p x0 st).selLog = [] := rfl

lemma initState_fc (p : Params) (x0 : ℚ) (st : List ℚ) :
    (initState p x0 st).fc = 1 := rfl

end ORS

namespace ORS

/-! Preservation of the history invariant. -/

lemma afterQuad_histInv (p : Params) (s : OrsState) (st' : List ℚ)
    (fa1 fa2 x2 g2 x3 g3 x4 g4 fa3 : ℚ) (fc : ℕ) (quadU : Bool) (pts : List ℚ)
    (h : histInv s) :
    histInv (afterQuad p s st' fa1 fa2 x2 g2 x3 g3 x4 g4 fa3 fc quadU pts) := by
  obtain ⟨hne, hlen, hacc, hle, hmono, hcvg⟩ := h
  unfold histInv
  simp only [afterQuad]
  split
  · rename_i himp
    refine ⟨by simp, by simp [hlen], by simp [hacc], ?_, ?_, ?_⟩
    · intro r hr
      rcases List.mem_append.mp hr with h1 | h2
      · exact ((himp.trans_le (hle r h1))).le
      · rw [List.mem_singleton.mp h2]
    · refine chain_append_one hmono ?_
      intro x hx
      rw [getLast?_eq_getD _ hne] at hx
      have hxmem : x ∈ s.hist := by
        rw [Option.mem_def, Option.some.injEq] at hx
        exact hx ▸ getD_last_mem _ hne
      exact (himp.trans_le (hle x hxmem)).le
    · refine chain_append_one hcvg ?_
      intro x hx
      rw [getLast?_eq_getD _ hne] at hx
      rw [Option.mem_def, Option.some.injEq] at hx
      subst hx
      rw [← hlen]
      exact ⟨rfl, rfl⟩
  · exact ⟨hne, hlen, hacc, hle, hmono, hcvg⟩

end ORS

namespace ORS

/-- Shape of a successful loop iteration: the new state is `afterQuad` applied
to the two probe points (feasibility-limited from the current point), their
evaluations, a function count increased by the two or three unit evaluation
increments, and either the untouched stale fourth slot (`quad_update` false)
or a freshly evaluated feasibility-limited quadratic candidate. -/
lemma orsoptStep_shape (p : Params) (s s' : OrsState)
    (h : orsoptStep p s = some s') :
    ∃ (d2 d3 x2 x3 x4 g4v fa3v : ℚ) (fc : ℕ) (quadU : Bool) (pts : List ℚ),
      x2 = probePoint s.x1 d2 ∧ x3 = probePoint s.x1 d3 ∧
      s' = afterQuad p s s.stream.tail (p.E x2).1 (p.E x3).1 x2 (p.E x2).2
        x3 (p.E x3).2 x4 g4v fa3v fc quadU pts ∧
      (fc = s.fc + 2 ∨ fc = s.fc + 3) ∧
      ((quadU = false ∧ pts = [x2, x3] ∧ x4 = s.x4 ∧ g4v = s.g4 ∧ fa3v = s.fa3) ∨
       (quadU = true ∧ (∃ d4, x4 = probePoint s.x1 d4) ∧ pts = [x2, x3, x4] ∧
        g4v = (p.E x4).2)) := by
  unfold orsoptStep stepR stepX2 stepF1 stepX3 stepF2 at h
  split at h
  · exact Option.noConfusion h
  · rename_i qa qb qc heq
    split at h
    · unfold stepX4 at h
      have he := (Option.some.inj h).symm
      exact ⟨_, _, _, _, _, _, _, _, _, _, rfl, rfl, he, Or.inr rfl,
        Or.inr ⟨rfl, ⟨_, rfl⟩, rfl, rfl⟩⟩
    · have he := (Option.some.inj h).symm
      exact ⟨_, _, _, _, _, _, _, _, _, _, rfl, rfl, he, Or.inl rfl,
        Or.inl ⟨rfl, rfl, rfl, rfl, rfl⟩⟩

lemma orsoptStep_histInv (p : Params) (s s' : OrsState)
    (h : orsoptStep p s = some s') (hI : histInv s) : histInv s' := by
  obtain ⟨d2, d3, x2, x3, x4, g4v, fa3v, fc, quadU, pts, -, -, hs', -, -⟩ :=
    orsoptStep_shape p s s' h
  exact hs' ▸ afterQuad_histInv _ _ _ _ _ _ _ _ _ _ _ _ _ _ _ hI

lemma initState_histInv (p : Params) (x0 : ℚ) (st : List ℚ) :
    histInv (initState p x0 st) := by
  unfold histInv initState
  refine ⟨by simp, rfl, rfl, ?_, ?_, ?_⟩
  · intro r hr
    rw [List.mem_singleton.mp hr]
  · exact List.chain'_singleton _
  · exact List.chain'_singleton _

lemma orsoptLoop_pres (p : Params) (P : OrsState → Prop)
    (hstep : ∀ s s', orsoptStep p s = some s' → P s → P s') :
    ∀ (n : ℕ) (s s' : OrsState), orsoptLoop p n s = some s' → P s → P s' := by
  intro n
  induction n with
  | zero =>
    intro s s' h hP
    simp only [orsoptLoop] at h
    exact (Option.some.inj h) ▸ hP
  | succ n ih =>
    intro s s' h hP
    simp only [orsoptLoop] at h
    split at h
    · exact (Option.some.inj h) ▸ hP
    · split at h
      · cases hs : orsoptStep p s with
        | none => rw [hs] at h; exact Option.noConfusion h
        | some s₁ => rw [hs] at h; exact ih s₁ s' h (hstep s s₁ hs hP)
      · exact (Option.some.inj h) ▸ hP

lemma orsoptLoop_stopped (p : Params) (n : ℕ) (s : OrsState)
    (h : s.stopped = true) : orsoptLoop p n s = some s := by
  cases n <;> simp [orsoptLoop, h]

lemma finalize_hist (p : Params) (s : OrsState) (hne : s.hist ≠ [])
    (hlen : s.hist.length = s.iteration) :
    (finalize p s).hist = s.hist := by
  show s.hist.take (max 1 s.iteration) = s.hist
  have h1 : 1 ≤ s.iteration := by
    have := List.length_pos.mpr hne
    omega
  rw [max_eq_right h1, ← hlen, List.take_length]

end ORS

namespace ORS

/-! Preservation of the box invariant. -/

lemma afterQuad_boxInv (p : Params) (s : OrsState) (st' : List ℚ)
    (fa1 fa2 x2 g2 x3 g3 x4 g4 fa3 : ℚ) (fc : ℕ) (quadU : Bool) (pts : List ℚ)
    (hpts : ∀ q ∈ pts, -1 ≤ q ∧ q ≤ 1) (hB : boxInv s) :
    boxInv (afterQuad p s st' fa1 fa2 x2 g2 x3 g3 x4 g4 fa3 fc quadU pts) := by
  obtain ⟨-, hlog⟩ := hB
  refine ⟨afterQuad_x1_mem p s st' fa1 fa2 x2 g2 x3 g3 x4 g4 fa3 fc quadU pts, ?_⟩
  rw [(afterQuad_fields p s st' fa1 fa2 x2 g2 x3 g3 x4 g4 fa3 fc quadU pts).2.2.1]
  intro q hq
  rcases List.mem_append.mp hq with h1 | h2
  · exact hlog q h1
  · exact hpts q h2

lemma orsoptStep_boxInv (p : Params) (s s' : OrsState)
    (h : orsoptStep p s = some s') (hB : boxInv s) : boxInv s' := by
  obtain ⟨d2, d3, x2, x3, x4, g4v, fa3v, fc, quadU, pts, hx2, hx3, hs', -, hcase⟩ :=
    orsoptStep_shape p s s' h
  have hx1 := hB.1
  subst hs'
  apply afterQuad_boxInv _ _ _ _ _ _ _ _ _ _ _ _ _ _ _ _ hB
  rcases hcase with ⟨-, hpts, -, -, -⟩ | ⟨-, ⟨d4, hx4⟩, hpts, -⟩ <;> subst hpts
  · intro q hq
    rcases List.mem_cons.mp hq with h1 | hq
    · exact h1 ▸ hx2 ▸ probePoint_mem _ _ hx1.1 hx1.2
    rcases List.mem_cons.mp hq with h1 | hq
    · exact h1 ▸ hx3 ▸ probePoint_mem _ _ hx1.1 hx1.2
    · exact absurd hq (List.not_mem_nil q)
  · intro q hq
    rcases List.mem_cons.mp hq with h1 | hq
    · exact h1 ▸ hx2 ▸ probePoint_mem _ _ hx1.1 hx1.2
    rcases List.mem_cons.mp hq with h1 | hq
    · exact h1 ▸ hx3 ▸ probePoint_mem _ _ hx1.1 hx1.2
    rcases List.mem_cons.mp hq with h1 | hq
    · exact h1 ▸ hx4 ▸ probePoint_mem _ _ hx1.1 hx1.2
    · exact absurd hq (List.not_mem_nil q)

lemma initState_boxInv (p : Params) (x0 : ℚ) (st : List ℚ) :
    boxInv (initState p x0 st) := by
  unfold boxInv initState
  refine ⟨clip1_mem _, ?_⟩
  intro q hq
  rw [List.mem_singleton.mp hq]
  exact clip1_mem _

/-! Preservation of the `fa[0]` slot and of the selection log entries. -/

lemma orsoptStep_faInv (p : Params) (s s' : OrsState) (c : ℚ)
    (h : orsoptStep p s = some s')
    (hc : s.fa0 = c ∧ ∀ v ∈ s.selLog, v.2.2 = c) :
    s'.fa0 = c ∧ ∀ v ∈ s'.selLog, v.2.2 = c := by
  obtain ⟨d2, d3, x2, x3, x4, g4v, fa3v, fc, quadU, pts, -, -, hs', -, -⟩ :=
    orsoptStep_shape p s s' h
  subst hs'
  have hf := afterQuad_fields p s s.stream.tail (p.E x2).1 (p.E x3).1 x2 (p.E x2).2
    x3 (p.E x3).2 x4 g4v fa3v fc quadU pts
  refine ⟨hf.1.trans hc.1, ?_⟩
  rw [hf.2.1]
  intro v hv
  rcases List.mem_append.mp hv with h1 | h2
  · exact hc.2 v h1
  · rw [List.mem_singleton.mp h2]
    exact hc.1

/-! Lemmas for the feasibility-stop analysis. -/

lemma afterQuad_stopped (p : Params) (s : OrsState) (st' : List ℚ)
    (fa1 fa2 x2 g2 x3 g3 x4 g4 fa3 : ℚ) (fc : ℕ) (quadU : Bool) (pts : List ℚ)
    (hff : p.find_feas = true) (hg1 : s.g1 < p.tol_g) (hg2 : g2 < p.tol_g)
    (hg3 : g3 < p.tol_g) (hg4 : g4 < p.tol_g) (hgo : s.g_opt < p.tol_g) :
    (afterQuad p s st' fa1 fa2 x2 g2 x3 g3 x4 g4 fa3 fc quadU pts).stopped = true := by
  simp only [afterQuad]
  split
  · show (_ || _) = true
    simp only [hff, Bool.and_true, Bool.or_eq_true, decide_eq_true_eq]
    left
    unfold sel4
    split
    · exact hg2
    split
    · exact hg3
    split
    · exact hg4
    · exact hg1
  · show (_ || _) = true
    simp only [hff, Bool.and_true, Bool.or_eq_true, decide_eq_true_eq]
    left
    exact hgo

lemma orsoptStep_stop (p : Params) (s s' : OrsState)
    (h : orsoptStep p s = some s')
    (hff : p.find_feas = true) (hE : ∀ x, (p.E x).2 < p.tol_g)
    (hg1 : s.g1 < p.tol_g) (hg4 : s.g4 < p.tol_g) (hgo : s.g_opt < p.tol_g) :
    s'.stopped = true := by
  obtain ⟨d2, d3, x2, x3, x4, g4v, fa3v, fc, quadU, pts, -, -, hs', -, hcase⟩ :=
    orsoptStep_shape p s s' h
  subst hs'
  rcases hcase with ⟨-, -, -, hg4v, -⟩ | ⟨-, -, -, hg4v⟩ <;> subst hg4v
  · exact afterQuad_stopped _ _ _ _ _ _ _ _ _ _ _ _ _ _ _
      hff hg1 (hE x2) (hE x3) hg4 hgo
  · exact afterQuad_stopped _ _ _ _ _ _ _ _ _ _ _ _ _ _ _
      hff hg1 (hE x2) (hE x3) (hE x4) hgo

lemma orsoptStep_fc_sel (p : Params) (s s' : OrsState)
    (h : orsoptStep p s = some s') :
    s'.fc ≤ s.fc + 3 ∧ s'.selLog.length = s.selLog.length + 1 := by
  obtain ⟨d2, d3, x2, x3, x4, g4v, fa3v, fc, quadU, pts, -, -, hs', hfc, -⟩ :=
    orsoptStep_shape p s s' h
  subst hs'
  have hf := afterQuad_fields p s s.stream.tail (p.E x2).1 (p.E x3).1 x2 (p.E x2).2
    x3 (p.E x3).2 x4 g4v fa3v fc quadU pts
  constructor
  · rw [hf.2.2.2]
    omega
  · rw [hf.2.1, List.length_append]
    rfl

end ORS

namespace ORS

lemma finalize_selLog (p : Params) (s : OrsState) :
    (finalize p s).selLog = s.selLog := rfl

lemma finalize_fc (p : Params) (s : OrsState) : (finalize p s).fc = s.fc := rfl

/-- The loop either returns its entry state or the result of exactly one body
execution, provided every body execution from the entry state raises the stop
flag. -/
lemma orsoptLoop_one (p : Params) (n : ℕ) (s s' : OrsState)
    (h : orsoptLoop p n s = some s')
    (hstop : ∀ s₂, orsoptStep p s = some s₂ → s₂.stopped = true) :
    s' = s ∨ ∃ s₂, orsoptStep p s = some s₂ ∧ s' = s₂ := by
  cases n with
  | zero =>
    left
    exact (Option.some.inj h).symm
  | succ n =>
    simp only [orsoptLoop] at h
    split at h
    · left
      exact (Option.some.inj h).symm
    · split at h
      · cases hs : orsoptStep p s with
        | none => rw [hs] at h; exact Option.noConfusion h
        | some s₂ =>
          rw [hs] at h
          have h' : orsoptLoop p n s₂ = some s' := h
          rw [orsoptLoop_stopped p n s₂ (hstop s₂ hs)] at h'
          right
          exact ⟨s₂, rfl, (Option.some.inj h').symm⟩
      · left
        exact (Option.some.inj h).symm

/-- C5: in the returned convergence-history table the recorded best objective
is monotonically non-increasing: every later column's objective is at most
the earlier column's. -/
theorem C5_history_monotone (E : ℚ → ℚ × ℚ) (x0 : ℚ) (olb oub : Option ℚ)
    (tolx tolf tolg : ℚ) (maxe : ℕ) (ff : Bool) (st : List ℚ) (res : OrsResult)
    (h : orsopt E x0 olb oub tolx tolf tolg maxe ff st = some res) :
    List.Chain' (fun a b => b.f ≤ a.f) res.hist := by
  simp only [orsopt] at h
  obtain ⟨s', hs', rfl⟩ := Option.map_eq_some'.mp h
  have hI := orsoptLoop_pres _ histInv (orsoptStep_histInv _) _ _ _ hs'
    (initState_histInv _ _ _)
  obtain ⟨hne, hlen, -, -, hmono, -⟩ := hI
  rw [finalize_hist _ _ hne hlen]
  exact hmono

/-- C5 witness: the monotonicity theorem applied to the concrete budget-5 run
of the improving objective `Ew`. -/
theorem C5_history_monotone_witness :
    List.Chain' (fun a b => b.f ≤ a.f) RW.hist :=
  C5_history_monotone Ew 0 (some (-1)) (some 1) 0 0 0 5 false [1, 1] RW
    (by decide)

/-- C2 (amended): whenever an accepted iteration appends a convergence record,
the recorded ratios divide the change from the previous record by the
magnitude of the *new* unscaled variable value, resp. the *new* objective,
plus `1e-16` (the code of lines 173–175 normalizes by the updated quantities,
not by the previous record's). -/
theorem C2_ratios_current_magnitude (E : ℚ → ℚ × ℚ) (x0 : ℚ) (olb oub : Option ℚ)
    (tolx tolf tolg : ℚ) (maxe : ℕ) (ff : Bool) (st : List ℚ) (res : OrsResult)
    (h : orsopt E x0 olb oub tolx tolf tolg maxe ff st = some res) :
    List.Chain' cvgRel res.hist := by
  simp only [orsopt] at h
  obtain ⟨s', hs', rfl⟩ := Option.map_eq_some'.mp h
  have hI := orsoptLoop_pres _ histInv (orsoptStep_histInv _) _ _ _ hs'
    (initState_histInv _ _ _)
  obtain ⟨hne, hlen, -, -, -, hcvg⟩ := hI
  rw [finalize_hist _ _ hne hlen]
  exact hcvg

/-- C2 witness: the ratio theorem applied to the concrete budget-5 run of the
improving objective `Ew`. -/
theorem C2_ratios_current_magnitude_witness : List.Chain' cvgRel RW.hist :=
  C2_ratios_current_magnitude Ew 0 (some (-1)) (some 1) 0 0 0 5 false [1, 1] RW
    (by decide)

/-- C2 counterexample: in the budget-3 run of `Ew` the second history column's
recorded ratios differ from the claimed formulas that normalize by the
*previous* record's magnitudes (`prev.x = 0` and `prev.f = 0` here, so the
claimed formulas would divide by the epsilon alone). -/
theorem C2_previous_magnitude_counterexample :
    orsopt Ew 0 (some (-1)) (some 1) 0 0 0 3 false [1] = some R2 ∧
    R2.hist.length = 2 ∧
    (R2.hist.getD 1 recDefault).cvgx ≠
      |(R2.hist.getD 0 recDefault).x - (R2.hist.getD 1 recDefault).x| /
        (|(R2.hist.getD 0 recDefault).x| + eps16) ∧
    (R2.hist.getD 1 recDefault).cvgf ≠
      |(R2.hist.getD 0 recDefault).f - (R2.hist.getD 1 recDefault).f| /
        (|(R2.hist.getD 0 recDefault).f| + eps16) := by decide

/-- C8 (amended): the returned table is truncated to exactly the recorded
columns: one per accepted (improving) iteration plus the seed column, i.e.
`length = accepted + 1`.  (The guarded back-fill of lines 241–242 concerns
the bottom-right relative-objective cell, not the evaluation-count cell, and
every recorded cell is already set.) -/
theorem C8_history_length (E : ℚ → ℚ × ℚ) (x0 : ℚ) (olb oub : Option ℚ)
    (tolx tolf tolg : ℚ) (maxe : ℕ) (ff : Bool) (st : List ℚ) (res : OrsResult)
    (h : orsopt E x0 olb oub tolx tolf tolg maxe ff st = some res) :
    res.hist.length = res.accepted + 1 := by
  simp only [orsopt] at h
  obtain ⟨s', hs', rfl⟩ := Option.map_eq_some'.mp h
  have hI := orsoptLoop_pres _ histInv (orsoptStep_histInv _) _ _ _ hs'
    (initState_histInv _ _ _)
  obtain ⟨hne, hlen, hacc, -, -, -⟩ := hI
  rw [finalize_hist _ _ hne hlen]
  exact hlen.trans hacc

/-- C8 witness: the truncation theorem applied to the concrete budget-5 run
of the improving objective `Ew`. -/
theorem C8_history_length_witness : RW.hist.length = RW.accepted + 1 :=
  C8_history_length Ew 0 (some (-1)) (some 1) 0 0 0 5 false [1, 1] RW
    (by decide)

/-- C8 counterexample: a run with zero accepted iterations still returns one
(seed) history column, so the table is not truncated to exactly the number of
accepted iterations. -/
theorem C8_truncation_counterexample :
    orsopt Ec1 0 (some (-1)) (some 1) 0 0 0 3 false [1] = some R8 ∧
    R8.accepted = 0 ∧ R8.hist.length = 1 ∧ R8.hist.length ≠ R8.accepted := by
  decide

/-- C6: every normalized point handed to the evaluator lies in `[-1, 1]`:
the seed is clipped before its evaluation, both probes and the quadratic
candidate are feasibility-limited through the step projector from the current
(clipped) point. -/
theorem C6_eval_points_in_box (E : ℚ → ℚ × ℚ) (x0 : ℚ) (olb oub : Option ℚ)
    (tolx tolf tolg : ℚ) (maxe : ℕ) (ff : Bool) (st : List ℚ) (res : OrsResult)
    (h : orsopt E x0 olb oub tolx tolf tolg maxe ff st = some res) :
    ∀ q ∈ res.evalLog, -1 ≤ q ∧ q ≤ 1 := by
  simp only [orsopt] at h
  obtain ⟨s', hs', rfl⟩ := Option.map_eq_some'.mp h
  have hB := orsoptLoop_pres _ boxInv (orsoptStep_boxInv _) _ _ _ hs'
    (initState_boxInv _ _ _)
  exact hB.2

/-- C6 witness: the box theorem applied to the concrete budget-5 run of the
improving objective `Ew`, at the first logged evaluation point. -/
theorem C6_eval_points_in_box_witness :
    -1 ≤ RW.evalLog.headD 0 ∧ RW.evalLog.headD 0 ≤ 1 :=
  C6_eval_points_in_box Ew 0 (some (-1)) (some 1) 0 0 0 5 false [1, 1] RW
    (by decide) (RW.evalLog.headD 0) (by decide)

/-- C9: the base-candidate cost slot `fa[0]` is assigned the seed objective
once before the main loop and never reassigned: in every iteration the
minimum search compares the fresh candidates against the initial guess's
objective (third component of each selection-log entry). -/
theorem C9_base_slot_constant (E : ℚ → ℚ × ℚ) (x0 : ℚ) (olb oub : Option ℚ)
    (tolx tolf tolg : ℚ) (maxe : ℕ) (ff : Bool) (st : List ℚ) (res : OrsResult)
    (h : orsopt E x0 olb oub tolx tolf tolg maxe ff st = some res) :
    ∀ v ∈ res.selLog, v.2.2 = seedObjective E x0 olb oub := by
  simp only [orsopt] at h
  obtain ⟨s', hs', rfl⟩ := Option.map_eq_some'.mp h
  have hP := orsoptLoop_pres _
    (fun s => s.fa0 = seedObjective E x0 olb oub ∧
      ∀ v ∈ s.selLog, v.2.2 = seedObjective E x0 olb oub)
    (fun s s' hstep hc => orsoptStep_faInv _ s s' _ hstep hc) _ _ _ hs'
    ⟨rfl, fun v hv => absurd hv (List.not_mem_nil v)⟩
  exact hP.2

/-- C9 witness: the base-slot theorem applied to the concrete budget-5 run of
the improving objective `Ew`, at the first selection-log entry. -/
theorem C9_base_slot_constant_witness :
    (RW.selLog.headD (0, false, 0)).2.2 = seedObjective Ew 0 (some (-1)) (some 1) :=
  C9_base_slot_constant Ew 0 (some (-1)) (some 1) 0 0 0 5 false [1, 1] RW
    (by decide) (RW.selLog.headD (0, false, 0)) (by decide)

/-- C10: when exactly one of the bounds is omitted (and also when both are),
both bounds are replaced by the defaults `±100·|x_init|`; a bound that was
provided alone is discarded. -/
theorem C10_default_bounds (x lb ub : ℚ) :
    resolveBounds x (some lb) none = (-(100 * |x|), 100 * |x|) ∧
    resolveBounds x none (some ub) = (-(100 * |x|), 100 * |x|) ∧
    resolveBounds x none none = (-(100 * |x|), 100 * |x|) :=
  ⟨rfl, rfl, rfl⟩

end ORS

namespace ORS

/-- C1: the code violates the claim that an uncomputed candidate 4 is never
selected.  In the budget-7 run of `E1`, the first iteration computes and
selects the quadratic candidate (value 1, written into the stale slot); the
second iteration's fit is not convex (`quad_update` stays `False`), yet
`np.argmin` still scans the stale `fa[3] = 1`, which beats `fa[0] = 10` and
the fresh probes, so the selection log contains an entry with index 3 and
`quad_update = False`. -/
theorem C1_stale_candidate_selected :
    orsopt E1 0 (some (-1)) (some 1) 0 0 0 7 false [1, 1, 1] = some R1 ∧
    ((3 : ℕ), false, (10 : ℚ)) ∈ R1.selLog := by decide

/-- C3 counterexample: with an evaluation budget of 5 and the constant
objective `-1`, the regularized quadratic fit is convex every iteration, so
each iteration spends three evaluations; the run ends with 7 cumulative
evaluations, not 5 — the budget is checked only at the top of the loop, and
the claim's "exactly the 5th cumulative evaluation" fails. -/
theorem C3_budget_overshoot_counterexample :
    orsopt Ecm1 0 (some (-1)) (some 1) 0 0 0 5 false [1, 1] = some R3neg ∧
    R3neg.fc = 7 ∧ R3neg.stopped = false := by decide

/-- C3 (amended): the budget is re-checked only at the start of each
iteration, so the final iteration may overshoot it.  With a budget of 5 and
the constant objective `+1` (whose regularized fit is never convex, so no
quadratic evaluations occur), the run terminates via budget exhaustion — no
break fired, no iteration was accepted — after exactly the 5th cumulative
evaluation, the seed included. -/
theorem C3_budget_exhaustion :
    orsopt Ec1 0 (some (-1)) (some 1) 0 0 0 5 false [1, 1] = some R3pos ∧
    R3pos.fc = 5 ∧ R3pos.stopped = false ∧ R3pos.accepted = 0 := by decide

/-- C4 counterexample: with the stop-on-feasible flag set and an already
feasible seed (`g = -1 < 1/10`), the run still performs the first loop
iteration's two probe evaluations before the feasibility check at the bottom
of the body fires: it stops with 3 cumulative evaluations, not 1. -/
theorem C4_seed_feasible_counterexample :
    orsopt E4 0 (some (-1)) (some 1) 0 0 (1 / 10) 10 true [1] = some R4 ∧
    R4.stopped = true ∧ R4.fc = 3 ∧ R4.fc ≠ 1 := by decide

/-- C4 (amended): with the stop-on-feasible flag set and every constraint
value below the constraint tolerance (in particular a feasible seed), the
optimizer breaks at the first end-of-body feasibility check: at most one loop
iteration runs, and at most 3 evaluations are spent beyond the seed. -/
theorem C4_feasible_stop (E : ℚ → ℚ × ℚ) (x0 : ℚ) (olb oub : Option ℚ)
    (tolx tolf tolg : ℚ) (maxe : ℕ) (st : List ℚ) (res : OrsResult)
    (hE : ∀ x, (E x).2 < tolg)
    (h : orsopt E x0 olb oub tolx tolf tolg maxe true st = some res) :
    res.selLog.length ≤ 1 ∧ res.fc ≤ 4 := by
  simp only [orsopt, mkParams] at h
  obtain ⟨s', hs', rfl⟩ := Option.map_eq_some'.mp h
  rcases orsoptLoop_one _ _ _ _ hs'
      (fun s₂ hs₂ => orsoptStep_stop _ _ _ hs₂ rfl hE (hE _) (hE _) (hE _))
    with hcase | ⟨s₂, hs₂, hcase⟩ <;> subst hcase
  · rw [finalize_selLog, finalize_fc, initState_selLog, initState_fc]
    exact ⟨by simp, by omega⟩
  · have hfs := orsoptStep_fc_sel _ _ _ hs₂
    rw [finalize_selLog, finalize_fc]
    constructor
    · rw [hfs.2, initState_selLog]
      simp
    · have h1 := hfs.1
      rw [initState_fc] at h1
      omega

/-- C4 witness: the amended feasibility-stop theorem applied to the concrete
run of the constant feasible evaluator `E4`. -/
theorem C4_feasible_stop_witness : R4.selLog.length ≤ 1 ∧ R4.fc ≤ 4 :=
  C4_feasible_stop E4 0 (some (-1)) (some 1) 0 0 (1 / 10) 10 [1] R4
    (fun x => by norm_num [E4]) (by decide)

/-- C7: with `lower_bounds = upper_bounds` the affine normalization of lines
65–66 divides by `lb - ub = 0` with no guard: no fallback branch exists and
no error is raised before evaluation — the run proceeds and the evaluator is
invoked (in IEEE arithmetic the scaling constants become infinite; in this
exact model the division by zero yields 0). -/
theorem C7_degenerate_bounds_no_guard :
    (1 : ℚ) - 1 = 0 ∧
    (mkParams E7 1 1 0 0 0 2 false).s0 = (1 + 1) / (1 - 1) ∧
    (mkParams E7 1 1 0 0 0 2 false).s1 = 2 / (1 - 1) ∧
    orsopt E7 1 (some 1) (some 1) 0 0 0 2 false [1] = some R7 ∧
    R7.evalLog ≠ [] ∧ 1 ≤ R7.fc := by decide

end ORS
